import Mathlib

/-!
Shallow embedding of `src/dbwrapper.h` (the typed key-value access layer over
an ordered byte-oriented storage engine), together with theorems settling the
stated properties of the layer.

Bytes are modelled as natural numbers (only XOR and equality matter here),
byte sequences as `List Nat`.  The generic serialization templates
(`ssKey << key`, `ssValue << value`) are modelled parametrically: every
definition takes the encoder(s) `encK : K → Bytes`, `encV : V → Bytes`
(and, where the source deserializes, a decoder `decV : Bytes → Option V`,
`none` standing for the decode exception caught in the source).
-/

namespace DBWrapper

abbrev Bytes := List Nat

/-- Modelled from the spec: `CDataStream::Xor` lives in `streams.h`, which is
not part of the sources here.  Spec §4.2: "`apply(bytes, key) -> bytes` —
bytewise XOR, cyclically repeating the key if the key is shorter than the
payload".  `j` is the running index into the key, advanced cyclically. -/
def xorWithKeyFrom (key : Bytes) : Nat → Bytes → Bytes
  | _, [] => []
  | j, b :: bs => (b ^^^ key.getD j 0) :: xorWithKeyFrom key ((j + 1) % key.length) bs

/-- Modelled from the spec: the cyclic-XOR obfuscation applied to a data
buffer with an obfuscation key (`CDataStream::Xor` of `streams.h`).  An empty
key leaves the data untouched (there is no byte to repeat cyclically). -/
def streamXor (data key : Bytes) : Bytes :=
  if key.isEmpty then data else xorWithKeyFrom key 0 data

theorem xorWithKeyFrom_length (key : Bytes) (j : Nat) (bs : Bytes) :
    (xorWithKeyFrom key j bs).length = bs.length := by
  induction bs generalizing j with
  | nil => rfl
  | cons b bs ih => simp [xorWithKeyFrom, ih]

theorem streamXor_length (data key : Bytes) :
    (streamXor data key).length = data.length := by
  unfold streamXor
  split
  · rfl
  · exact xorWithKeyFrom_length key 0 data

theorem xorWithKeyFrom_xorWithKeyFrom (key : Bytes) (j : Nat) (bs : Bytes) :
    xorWithKeyFrom key j (xorWithKeyFrom key j bs) = bs := by
  induction bs generalizing j with
  | nil => rfl
  | cons b bs ih =>
      simp [xorWithKeyFrom, Nat.xor_cancel_right, ih]

theorem streamXor_streamXor (data key : Bytes) :
    streamXor (streamXor data key) key = data := by
  unfold streamXor
  split
  · rfl
  · exact xorWithKeyFrom_xorWithKeyFrom key 0 data

theorem xorWithKeyFrom_zero_key (key : Bytes) (hz : ∀ i, key.getD i 0 = 0)
    (j : Nat) (bs : Bytes) : xorWithKeyFrom key j bs = bs := by
  induction bs generalizing j with
  | nil => rfl
  | cons b bs ih => rw [xorWithKeyFrom, hz j, Nat.xor_zero, ih]

theorem getD_replicate_zero (n i : Nat) :
    (List.replicate n (0 : Nat)).getD i 0 = 0 := by
  induction n generalizing i with
  | zero => rfl
  | succ n ih =>
      cases i with
      | zero => rfl
      | succ i => simp [List.replicate]

theorem streamXor_replicate_zero (data : Bytes) (n : Nat) :
    streamXor data (List.replicate n 0) = data := by
  unfold streamXor
  split
  · rfl
  · exact xorWithKeyFrom_zero_key _ (getD_replicate_zero n) 0 data

/-- One queued change inside the engine-native write batch
(`leveldb::WriteBatch`): a Put carries key and value byte sequences, a
Delete carries only key bytes. -/
inductive BatchEntry : Type
  | put (key value : Bytes)
  | del (key : Bytes)
  deriving DecidableEq, Repr

/-- `CDBBatch` (dbwrapper.h lines 52-123): the queued entries, the two scratch
serialization streams `ssKey`/`ssValue`, and the running `size_estimate`. -/
structure CDBBatch : Type where
  entries : List BatchEntry
  ssKey : Bytes
  ssValue : Bytes
  size_estimate : Nat
  deriving DecidableEq, Repr

/-- The freshly constructed batch (dbwrapper.h line 69): empty streams,
`size_estimate` zero, and an empty underlying write batch. -/
def CDBBatch.mk0 : CDBBatch := ⟨[], [], [], 0⟩

/-- `CDBBatch::Clear` (lines 71-75): `batch.Clear()` drops the queued entries
and `size_estimate` is reset to `0`; the scratch streams are not touched. -/
def CDBBatch.Clear (b : CDBBatch) : CDBBatch :=
  { b with entries := [], size_estimate := 0 }

/-- `CDBBatch::Write` (lines 78-103).  `ssKey << key` appends the encoded key
to the scratch stream, the key slice covers the whole stream; the value
stream gets the encoded value appended and is then XORed with the parent's
obfuscation key; the Put entry is queued; `size_estimate` grows by
`3 + (|slKey| > 127) + |slKey| + (|slValue| > 127) + |slValue|` (line 100);
finally both scratch streams are cleared (lines 101-102). -/
def CDBBatch.Write {K V : Type} (encK : K → Bytes) (encV : V → Bytes)
    (obf : Bytes) (b : CDBBatch) (key : K) (value : V) : CDBBatch :=
  let slKey : Bytes := b.ssKey ++ encK key
  let slValue : Bytes := streamXor (b.ssValue ++ encV value) obf
  { entries := b.entries ++ [BatchEntry.put slKey slValue]
    ssKey := []
    ssValue := []
    size_estimate := b.size_estimate +
      (3 + (if 127 < slKey.length then 1 else 0) + slKey.length
         + (if 127 < slValue.length then 1 else 0) + slValue.length) }

/-- `CDBBatch::Erase` (lines 105-120).  The encoded key is appended to
`ssKey`, the Delete entry is queued, `size_estimate` grows by
`2 + (|slKey| > 127) + |slKey|` (line 118), and `ssKey` alone is cleared
(line 119) — `ssValue` is not touched by `Erase`. -/
def CDBBatch.Erase {K : Type} (encK : K → Bytes) (b : CDBBatch) (key : K) :
    CDBBatch :=
  let slKey : Bytes := b.ssKey ++ encK key
  { b with
    entries := b.entries ++ [BatchEntry.del slKey]
    ssKey := []
    size_estimate := b.size_estimate +
      (2 + (if 127 < slKey.length then 1 else 0) + slKey.length) }

/-- `CDBBatch::SizeEstimate` (line 122). -/
def CDBBatch.SizeEstimate (b : CDBBatch) : Nat := b.size_estimate

/-- The spec's framing-overhead function, quoted verbatim for comparison with
the source's accounting: "`framing_overhead(x)` is 2 bytes if
`len(x) ≤ 127` else 3 bytes" (spec §4.3). -/
def specFramingOverhead (x : Bytes) : Nat := if x.length ≤ 127 then 2 else 3

/-- Outcome of a point lookup in the engine (`leveldb::Status` of
`pdb->Get`): a hit with the stored bytes, a not-found status, or any other
non-ok status carrying the engine's diagnostic message. -/
inductive GetResult : Type
  | found (value : Bytes)
  | notFound
  | ioError (msg : String)
  deriving DecidableEq, Repr

/-- The engine's keyspace as seen through point lookups: stored byte
sequences indexed by key bytes. -/
abbrev Engine := Bytes → GetResult

/-- Applying one queued batch entry to the engine keyspace: a Put makes the
key map to the stored value bytes, a Delete makes it not-found.  Later
entries for the same key win (spec §3, BatchEntry: "entries are
apply-ordered"). -/
def applyEntry (e : Engine) : BatchEntry → Engine
  | BatchEntry.put k v => fun q => if q = k then GetResult.found v else e q
  | BatchEntry.del k => fun q => if q = k then GetResult.notFound else e q

/-- `CDBWrapper` (dbwrapper.h lines 190-379), reduced to the state the typed
operations read and write: the engine keyspace `pdb` and the obfuscation key
`obfuscate_key`. -/
structure CDBWrapper : Type where
  pdb : Engine
  obfuscate_key : Bytes

/-- Errors thrown by the layer (`dbwrapper_error`, dbwrapper.h lines 24-28),
raised by `dbwrapper_private::HandleError` on a non-ok, non-not-found engine
status. -/
abbrev DBError := String

/-- Modelled from the spec: `CDBWrapper::WriteBatch` is declared at
dbwrapper.h line 320 but defined in dbwrapper.cpp, which is not among the
sources.  Spec §4.5 `commit`: "atomically applies all entries in `batch` to
the engine (all-or-nothing)"; the entries are applied in queue order. -/
def CDBWrapper.WriteBatch (w : CDBWrapper) (b : CDBBatch) : CDBWrapper :=
  { w with pdb := b.entries.foldl applyEntry w.pdb }

/-- The key slice `CDBWrapper::Read` hands to `pdb->Get` (lines 256-260): a
fresh empty stream, `ssKey << key`, the slice covering the whole stream.
No obfuscation touches it. -/
def CDBWrapper.readKeySlice {K : Type} (encK : K → Bytes) (key : K) : Bytes :=
  [] ++ encK key

/-- `CDBWrapper::Read` (lines 253-278).  Not-found returns false (`none`
here); any other non-ok status is escalated through `HandleError`, which
throws (`Except.error`); on a hit the value stream is de-obfuscated with
`obfuscate_key` and deserialized, and a deserialization exception is caught
and turned into `return false` — modelled by the decoder returning `none`. -/
def CDBWrapper.Read {K V : Type} (encK : K → Bytes) (decV : Bytes → Option V)
    (w : CDBWrapper) (key : K) : Except DBError (Option V) :=
  match w.pdb (CDBWrapper.readKeySlice encK key) with
  | GetResult.notFound => Except.ok none
  | GetResult.ioError msg => Except.error msg
  | GetResult.found strValue =>
      Except.ok (decV (streamXor strValue w.obfuscate_key))

/-- `CDBWrapper::Write` (lines 280-288): build a fresh single-entry batch on
this wrapper and commit it via `WriteBatch`. -/
def CDBWrapper.Write {K V : Type} (encK : K → Bytes) (encV : V → Bytes)
    (w : CDBWrapper) (key : K) (value : V) : CDBWrapper :=
  w.WriteBatch (CDBBatch.mk0.Write encK encV w.obfuscate_key key value)

/-- The key slice `CDBWrapper::Exists` hands to `pdb->Get` (lines 294-297):
the codec's encoding of the key, nothing else. -/
def CDBWrapper.existsKeySlice {K : Type} (encK : K → Bytes) (key : K) :
    Bytes :=
  [] ++ encK key

/-- `CDBWrapper::Exists` (lines 291-308): point lookup that never looks at
the value bytes; not-found returns false, other non-ok statuses throw, any
hit returns true. -/
def CDBWrapper.Exists {K : Type} (encK : K → Bytes) (w : CDBWrapper)
    (key : K) : Except DBError Bool :=
  match w.pdb (CDBWrapper.existsKeySlice encK key) with
  | GetResult.notFound => Except.ok false
  | GetResult.ioError msg => Except.error msg
  | GetResult.found _ => Except.ok true

/-- `CDBWrapper::Erase` (lines 310-318): single-entry delete batch,
committed via `WriteBatch`. -/
def CDBWrapper.Erase {K : Type} (encK : K → Bytes) (w : CDBWrapper)
    (key : K) : CDBWrapper :=
  w.WriteBatch (CDBBatch.mk0.Erase encK key)

/-- The key slice `CDBIterator::Seek` hands to `piter->Seek` (lines
147-154): fresh stream, `ssKey << key`, whole stream as the slice. -/
def CDBIterator.seekSlice {K : Type} (encK : K → Bytes) (key : K) : Bytes :=
  [] ++ encK key

/-- `CDBIterator::GetValue` (lines 171-181): the iterator's current value
bytes are de-obfuscated with the parent's key and deserialized; a
deserialization exception yields false (`none`). -/
def CDBIterator.GetValue {V : Type} (decV : Bytes → Option V) (obf : Bytes)
    (slValue : Bytes) : Option V :=
  decV (streamXor slValue obf)

/-- The two key slices `CDBWrapper::EstimateSize` hands to
`GetApproximateSizes` (lines 346-360): the codec encodings of the bounds. -/
def CDBWrapper.estimateSizeSlices {K : Type} (encK : K → Bytes)
    (key_begin key_end : K) : Bytes × Bytes :=
  ([] ++ encK key_begin, [] ++ encK key_end)

/-- The two key slices `CDBWrapper::CompactRange` hands to
`pdb->CompactRange` (lines 366-377). -/
def CDBWrapper.compactRangeSlices {K : Type} (encK : K → Bytes)
    (key_begin key_end : K) : Bytes × Bytes :=
  ([] ++ encK key_begin, [] ++ encK key_end)

/-- One call in a sequence of batch mutations: `CDBBatch::Write` or
`CDBBatch::Erase`. -/
inductive BatchOp (K V : Type) : Type
  | write (key : K) (value : V)
  | erase (key : K)

/-- Performing one batch call. -/
def applyOp {K V : Type} (encK : K → Bytes) (encV : V → Bytes) (obf : Bytes)
    (b : CDBBatch) : BatchOp K V → CDBBatch
  | BatchOp.write key value => b.Write encK encV obf key value
  | BatchOp.erase key => b.Erase encK key

/-- Performing a sequence of batch calls, first to last. -/
def applyOps {K V : Type} (encK : K → Bytes) (encV : V → Bytes) (obf : Bytes)
    (b : CDBBatch) (ops : List (BatchOp K V)) : CDBBatch :=
  ops.foldl (applyOp encK encV obf) b

/-- The engine-batch entry a single call contributes, as a function of that
call's own arguments alone. -/
def entryOf {K V : Type} (encK : K → Bytes) (encV : V → Bytes) (obf : Bytes) :
    BatchOp K V → BatchEntry
  | BatchOp.write key value =>
      BatchEntry.put (encK key) (streamXor (encV value) obf)
  | BatchOp.erase key => BatchEntry.del (encK key)

/-- A concrete single-byte codec used as witness material: a number is
serialized as the one-byte sequence holding it. -/
def enc1 (n : Nat) : Bytes := [n]

/-- The matching decoder: exactly one byte deserializes, anything else is a
deserialization failure. -/
def dec1 : Bytes → Option Nat
  | [n] => some n
  | _ => none

theorem specFramingOverhead_eq (x : Bytes) :
    specFramingOverhead x = 2 + (if 127 < x.length then 1 else 0) := by
  unfold specFramingOverhead
  split
  · next h => rw [if_neg (by omega)]
  · next h => rw [if_pos (by omega)]

theorem applyOp_size_lt {K V : Type} (encK : K → Bytes) (encV : V → Bytes)
    (obf : Bytes) (b : CDBBatch) (o : BatchOp K V) :
    b.SizeEstimate < (applyOp encK encV obf b o).SizeEstimate := by
  cases o <;>
    simp only [applyOp, CDBBatch.Write, CDBBatch.Erase, CDBBatch.SizeEstimate] <;>
    omega

theorem applyOps_size_le {K V : Type} (encK : K → Bytes) (encV : V → Bytes)
    (obf : Bytes) (ops : List (BatchOp K V)) (b : CDBBatch) :
    b.SizeEstimate ≤ (applyOps encK encV obf b ops).SizeEstimate := by
  induction ops generalizing b with
  | nil => exact Nat.le_refl _
  | cons o ops ih =>
      exact Nat.le_trans
        (Nat.le_of_lt (applyOp_size_lt encK encV obf b o)) (ih _)

/-- Claim C4: cyclic-XOR obfuscation applied twice with the same key is the
identity, and applied with an all-zero key it leaves the data unchanged, so
value bytes XORed on the write path are recovered exactly on the read
path. -/
theorem obfuscation_involution :
    ∀ (v k : Bytes) (n : Nat),
      streamXor (streamXor v k) k = v ∧ streamXor v (List.replicate n 0) = v :=
  fun v k n => ⟨streamXor_streamXor v k, streamXor_replicate_zero v n⟩

/-- Claim C8: `CDBBatch::Clear` drops every queued put/delete entry from the
underlying write batch and resets `SizeEstimate()` to exactly 0. -/
theorem clear_drops_entries_and_size :
    ∀ b : CDBBatch, (b.Clear).entries = [] ∧ (b.Clear).SizeEstimate = 0 :=
  fun _ => ⟨rfl, rfl⟩

/-- Claim C2 as stated is false: on a one-byte key and one-byte value the
source adds `3 + 0 + 1 + 0 + 1 = 5` to the size estimate (dbwrapper.h line
100), while `framing_overhead(key) + key_len + framing_overhead(value) +
value_len = 2 + 1 + 2 + 1 = 6`. -/
theorem write_size_formula_counterexample :
    ¬ ((CDBBatch.mk0.Write enc1 enc1 [] 5 7).SizeEstimate
        = CDBBatch.mk0.SizeEstimate
          + specFramingOverhead (enc1 5) + (enc1 5).length
          + specFramingOverhead (enc1 7) + (enc1 7).length) := by
  decide

/-- Claim C2, amended: a `CDBBatch::Write` call on a batch with clean scratch
streams grows the size estimate by `framing_overhead(key) + key_len +
framing_overhead(value) + value_len - 1`: the one-byte record header is
shared by the two framed fields, not paid once per field. -/
theorem write_size_estimate_amended :
    ∀ {K V : Type} (encK : K → Bytes) (encV : V → Bytes) (obf : Bytes)
      (b : CDBBatch) (key : K) (value : V),
      b.ssKey = [] → b.ssValue = [] →
      (b.Write encK encV obf key value).SizeEstimate + 1
        = b.SizeEstimate
          + specFramingOverhead (encK key) + (encK key).length
          + specFramingOverhead (encV value) + (encV value).length := by
  intro K V encK encV obf b key value hK hV
  simp only [CDBBatch.Write, CDBBatch.SizeEstimate, hK, hV, List.nil_append,
    streamXor_length, specFramingOverhead_eq]
  omega

theorem write_size_estimate_amended_witness :
    CDBBatch.mk0.ssKey = [] ∧ CDBBatch.mk0.ssValue = []
    ∧ (CDBBatch.mk0.Write enc1 enc1 [] 5 7).SizeEstimate + 1
        = CDBBatch.mk0.SizeEstimate
          + specFramingOverhead (enc1 5) + (enc1 5).length
          + specFramingOverhead (enc1 7) + (enc1 7).length :=
  ⟨rfl, rfl, write_size_estimate_amended enc1 enc1 [] CDBBatch.mk0 5 7 rfl rfl⟩

/-- Claim C3 as stated is false: on a one-byte key the source adds
`2 + 0 + 1 = 3` to the size estimate (dbwrapper.h line 118), while
`framing_overhead(key) + key_len + 1 = 2 + 1 + 1 = 4`. -/
theorem erase_size_formula_counterexample :
    ¬ ((CDBBatch.mk0.Erase enc1 5).SizeEstimate
        = CDBBatch.mk0.SizeEstimate
          + specFramingOverhead (enc1 5) + (enc1 5).length + 1) := by
  decide

/-- Claim C3, amended: a `CDBBatch::Erase` call on a batch with a clean key
scratch stream grows the size estimate by exactly `framing_overhead(key) +
key_len`, with no further `+ 1`: the 2-or-3-byte framing overhead already
covers both the record header byte and the key-length varint. -/
theorem erase_size_estimate_amended :
    ∀ {K : Type} (encK : K → Bytes) (b : CDBBatch) (key : K),
      b.ssKey = [] →
      (b.Erase encK key).SizeEstimate
        = b.SizeEstimate + specFramingOverhead (encK key)
          + (encK key).length := by
  intro K encK b key hK
  simp only [CDBBatch.Erase, CDBBatch.SizeEstimate, hK, List.nil_append,
    specFramingOverhead_eq]
  omega

theorem erase_size_estimate_amended_witness :
    CDBBatch.mk0.ssKey = []
    ∧ (CDBBatch.mk0.Erase enc1 5).SizeEstimate
        = CDBBatch.mk0.SizeEstimate + specFramingOverhead (enc1 5)
          + (enc1 5).length :=
  ⟨rfl, erase_size_estimate_amended enc1 CDBBatch.mk0 5 rfl⟩

/-- Claim C7: over any sequence of `CDBBatch::Write`/`CDBBatch::Erase` calls
with no intervening `Clear`, `SizeEstimate()` is non-decreasing, and each
individual call strictly increases it. -/
theorem size_estimate_monotone :
    ∀ {K V : Type} (encK : K → Bytes) (encV : V → Bytes) (obf : Bytes),
      (∀ (b : CDBBatch) (ops : List (BatchOp K V)),
        b.SizeEstimate ≤ (applyOps encK encV obf b ops).SizeEstimate)
      ∧ (∀ (b : CDBBatch) (o : BatchOp K V),
        b.SizeEstimate < (applyOp encK encV obf b o).SizeEstimate) :=
  fun encK encV obf =>
    ⟨fun b ops => applyOps_size_le encK encV obf ops b,
     fun b o => applyOp_size_lt encK encV obf b o⟩

theorem applyOps_clean {K V : Type} (encK : K → Bytes) (encV : V → Bytes)
    (obf : Bytes) (ops : List (BatchOp K V)) (b : CDBBatch)
    (hK : b.ssKey = []) (hV : b.ssValue = []) :
    (applyOps encK encV obf b ops).ssKey = []
    ∧ (applyOps encK encV obf b ops).ssValue = []
    ∧ (applyOps encK encV obf b ops).entries
        = b.entries ++ ops.map (entryOf encK encV obf) := by
  induction ops generalizing b with
  | nil => exact ⟨hK, hV, by simp [applyOps]⟩
  | cons o ops ih =>
      cases o with
      | write key value =>
          have step := ih (b.Write encK encV obf key value) rfl rfl
          refine ⟨step.1, step.2.1, ?_⟩
          rw [show applyOps encK encV obf b (BatchOp.write key value :: ops)
              = applyOps encK encV obf (b.Write encK encV obf key value) ops
              from rfl, step.2.2]
          simp [CDBBatch.Write, entryOf, hK, hV]
      | erase key =>
          have step := ih (b.Erase encK key) rfl hV
          refine ⟨step.1, step.2.1, ?_⟩
          rw [show applyOps encK encV obf b (BatchOp.erase key :: ops)
              = applyOps encK encV obf (b.Erase encK key) ops
              from rfl, step.2.2]
          simp [CDBBatch.Erase, entryOf, hK]

/-- Claim C10: starting from the freshly constructed batch, after every
completed `Write`/`Erase` call the scratch streams `ssKey` and `ssValue` are
empty again, so the entry each call appends to the engine batch is a
function of that call's own arguments alone — `entryOf`, which mentions no
earlier state. -/
theorem scratch_streams_reset :
    ∀ {K V : Type} (encK : K → Bytes) (encV : V → Bytes) (obf : Bytes)
      (ops : List (BatchOp K V)),
      (applyOps encK encV obf CDBBatch.mk0 ops).ssKey = []
      ∧ (applyOps encK encV obf CDBBatch.mk0 ops).ssValue = []
      ∧ (applyOps encK encV obf CDBBatch.mk0 ops).entries
          = ops.map (entryOf encK encV obf) := by
  intro K V encK encV obf ops
  have h := applyOps_clean encK encV obf ops CDBBatch.mk0 rfl rfl
  exact ⟨h.1, h.2.1, by rw [h.2.2]; rfl⟩

/-- Claim C6: in every operation of the layer the XOR obfuscation touches
only serialized value bytes, never key bytes — the key bytes handed to the
engine by batch `Write`/`Erase`, `Read`, `Exists`, iterator `Seek`,
`EstimateSize` and `CompactRange` are exactly the codec's encoding of the
typed key, while the value stored by `Write` is the XORed encoding. -/
theorem keys_handed_unobfuscated :
    ∀ {K V : Type} (encK : K → Bytes) (encV : V → Bytes) (obf : Bytes)
      (b : CDBBatch) (key key2 : K) (value : V),
      b.ssKey = [] → b.ssValue = [] →
      (b.Write encK encV obf key value).entries
          = b.entries
            ++ [BatchEntry.put (encK key) (streamXor (encV value) obf)]
      ∧ (b.Erase encK key).entries
          = b.entries ++ [BatchEntry.del (encK key)]
      ∧ CDBWrapper.readKeySlice encK key = encK key
      ∧ CDBWrapper.existsKeySlice encK key = encK key
      ∧ CDBIterator.seekSlice encK key = encK key
      ∧ CDBWrapper.estimateSizeSlices encK key key2 = (encK key, encK key2)
      ∧ CDBWrapper.compactRangeSlices encK key key2
          = (encK key, encK key2) := by
  intro K V encK encV obf b key key2 value hK hV
  refine ⟨?_, ?_, rfl, rfl, rfl, rfl, rfl⟩
  · simp [CDBBatch.Write, hK, hV]
  · simp [CDBBatch.Erase, hK]

theorem keys_handed_unobfuscated_witness :
    CDBBatch.mk0.ssKey = [] ∧ CDBBatch.mk0.ssValue = []
    ∧ ((CDBBatch.mk0.Write enc1 enc1 [9] 1 3).entries
          = CDBBatch.mk0.entries
            ++ [BatchEntry.put (enc1 1) (streamXor (enc1 3) [9])]
        ∧ (CDBBatch.mk0.Erase enc1 1).entries
            = CDBBatch.mk0.entries ++ [BatchEntry.del (enc1 1)]
        ∧ CDBWrapper.readKeySlice enc1 1 = enc1 1
        ∧ CDBWrapper.existsKeySlice enc1 1 = enc1 1
        ∧ CDBIterator.seekSlice enc1 1 = enc1 1
        ∧ CDBWrapper.estimateSizeSlices enc1 1 2 = (enc1 1, enc1 2)
        ∧ CDBWrapper.compactRangeSlices enc1 1 2 = (enc1 1, enc1 2)) :=
  ⟨rfl, rfl, keys_handed_unobfuscated enc1 enc1 [9] CDBBatch.mk0 1 2 3 rfl rfl⟩

/-- Claim C1: after `CDBWrapper::Write(k, v)` — which encodes key and value,
XOR-obfuscates the value and commits a single-entry batch — a subsequent
`CDBWrapper::Read(k)` succeeds and returns exactly `v`, for any codec whose
decoder inverts its encoder. -/
theorem write_read_consistency :
    ∀ {K V : Type} (encK : K → Bytes) (encV : V → Bytes)
      (decV : Bytes → Option V) (w : CDBWrapper) (key : K) (value : V),
      (∀ x : V, decV (encV x) = some x) →
      (w.Write encK encV key value).Read encK decV key
        = Except.ok (some value) := by
  intro K V encK encV decV w key value hdec
  simp [CDBWrapper.Write, CDBWrapper.WriteBatch, CDBBatch.Write,
    CDBBatch.mk0, CDBWrapper.Read, CDBWrapper.readKeySlice, applyEntry,
    streamXor_streamXor, hdec]

theorem write_read_consistency_witness :
    (∀ x : Nat, dec1 (enc1 x) = some x)
    ∧ ((CDBWrapper.mk (fun _ => GetResult.notFound) [3, 7, 11]).Write
          enc1 enc1 2 9).Read enc1 dec1 2 = Except.ok (some 9) :=
  ⟨fun _ => rfl,
   write_read_consistency enc1 enc1 dec1
     (CDBWrapper.mk (fun _ => GetResult.notFound) [3, 7, 11]) 2 9
     (fun _ => rfl)⟩

/-- Claim C5: when the engine lookup in `CDBWrapper::Read` hits but the
stored bytes fail to deserialize as the requested type, `Read` returns
false — the same `Except.ok none` as not-found — rather than an error. -/
theorem read_decode_failure_not_found :
    ∀ {K V : Type} (encK : K → Bytes) (decV : Bytes → Option V)
      (w : CDBWrapper) (key : K) (s : Bytes),
      w.pdb (encK key) = GetResult.found s →
      decV (streamXor s w.obfuscate_key) = none →
      w.Read encK decV key = Except.ok none := by
  intro K V encK decV w key s hfound hdec
  simp [CDBWrapper.Read, CDBWrapper.readKeySlice, hfound, hdec]

theorem read_decode_failure_not_found_witness :
    (CDBWrapper.mk (fun _ => GetResult.found [1, 2]) []).pdb (enc1 0)
        = GetResult.found [1, 2]
    ∧ dec1 (streamXor [1, 2]
        (CDBWrapper.mk (fun _ => GetResult.found [1, 2]) []).obfuscate_key)
        = none
    ∧ (CDBWrapper.mk (fun _ => GetResult.found [1, 2]) []).Read enc1 dec1 0
        = Except.ok none :=
  ⟨rfl, rfl,
   read_decode_failure_not_found enc1 dec1
     (CDBWrapper.mk (fun _ => GetResult.found [1, 2]) []) 0 [1, 2] rfl rfl⟩

/-- Claim C9: `Exists` and `Read` can disagree — when the engine holds bytes
for a key that do not deserialize as the requested type, `Exists` returns
true (it never decodes the value) while `Read` returns false, so a key can
exist yet be unreadable through the typed API. -/
theorem exists_read_disagree :
    ∀ {K V : Type} (encK : K → Bytes) (decV : Bytes → Option V)
      (w : CDBWrapper) (key : K) (s : Bytes),
      w.pdb (encK key) = GetResult.found s →
      decV (streamXor s w.obfuscate_key) = none →
      w.Exists encK key = Except.ok true
      ∧ w.Read encK decV key = Except.ok none := by
  intro K V encK decV w key s hfound hdec
  constructor
  · simp [CDBWrapper.Exists, CDBWrapper.existsKeySlice, hfound]
  · simp [CDBWrapper.Read, CDBWrapper.readKeySlice, hfound, hdec]

theorem exists_read_disagree_witness :
    (CDBWrapper.mk (fun _ => GetResult.found [4, 5]) []).pdb (enc1 2)
        = GetResult.found [4, 5]
    ∧ dec1 (streamXor [4, 5]
        (CDBWrapper.mk (fun _ => GetResult.found [4, 5]) []).obfuscate_key)
        = none
    ∧ ((CDBWrapper.mk (fun _ => GetResult.found [4, 5]) []).Exists enc1 2
          = Except.ok true
        ∧ (CDBWrapper.mk (fun _ => GetResult.found [4, 5]) []).Read enc1 dec1 2
          = Except.ok none) :=
  ⟨rfl, rfl,
   exists_read_disagree enc1 dec1
     (CDBWrapper.mk (fun _ => GetResult.found [4, 5]) []) 2 [4, 5] rfl rfl⟩

end DBWrapper
